import Mathlib

/-!
Verification of the deduplication-with-conflict-resolution core of the
paper-screening pipeline (`prisma_generator.py`).

The Python code works on loosely typed JSON dictionaries.  We embed a paper
record as a structure whose fields mirror the keys the core reads or writes:
keys read through `paper.get(k, "")` are plain `String`s (absent = `""`),
keys read through `paper.get(k)` / `paper.get(k, default)` are `Option`s so
that an absent key is distinguishable from a present one.  The interactive
`input()` prompt of `resolve_screening_conflict` is embedded as a list of
input lines (the collaborator's answers); exhausting the list models the
`EOFError` a missing collaborator raises, and any failure inside the merge
surfaces as `none`.  The wall clock (`datetime.now().isoformat()`) is passed
in as an explicit `now : String` parameter.  Confidences are embedded as
rationals: the code only copies and compares them, never does float
arithmetic, so `ℚ` models the Python floats faithfully on the operations
used.
-/

namespace PaperScreening

/-- Python `str.strip()`: drop leading and trailing whitespace.  Embedded at
the character-list level so that it is structurally recursive. -/
def pyStrip (s : String) : String :=
  ⟨((s.data.dropWhile Char.isWhitespace).reverse.dropWhile Char.isWhitespace).reverse⟩

/-- Python `str.lower()` (ASCII case folding, which covers DOI strings). -/
def pyLower (s : String) : String :=
  ⟨s.data.map Char.toLower⟩

/-- Python `sep.join(l)`, structurally recursive. -/
def joinSep (sep : String) : List String → String
  | [] => ""
  | [x] => x
  | x :: y :: xs => x ++ sep ++ joinSep sep (y :: xs)

/-- A provenance entry of the `duplicate_sources` audit list built for a
unanimous multi-member group (all five values are read with `.get(key)`,
so an absent key yields `None`, embedded as `none`). -/
structure DecisionRecord where
  source_query_id : Option Nat
  source_query_description : Option String
  decision : Option String
  confidence : Option ℚ
  reason : Option String
deriving Repr, DecidableEq

/-- One entry of `conflict_resolution["original_decisions"]`: note the code
records the query description under the key `"query"` and stores no query id
here. -/
structure OrigDecision where
  query : Option String
  decision : Option String
  confidence : Option ℚ
  reason : Option String
deriving Repr, DecidableEq

/-- The `conflict_resolution` block written by `resolve_screening_conflict`.
`selected_confidence` and `selected_from_query` are keys that only some
resolution methods write, hence the outer `Option` (key present or not);
the inner `Option` is the copied field's own value. -/
structure ConflictResolution where
  method : String
  timestamp : String
  selected_confidence : Option (Option ℚ)
  selected_from_query : Option (Option String)
  original_decisions : List OrigDecision
deriving Repr, DecidableEq

/-- A screened-paper record, with exactly the fields the dedup core touches.
`meta` stands for the opaque bibliographic payload (authors, venue, year,
abstract, ...) the core only prints or carries through. -/
structure Paper where
  title : String
  doi : String
  openalex_id : String
  decision : Option String
  confidence : Option ℚ
  reason : Option String
  source_query_id : Option Nat
  source_query_description : Option String
  meta : String
  duplicate_sources : Option (List DecisionRecord)
  conflict_resolution : Option ConflictResolution
deriving Repr, DecidableEq

/-- Identity resolution, lines 101-113 of `prisma_generator.py`: the DOI is
trimmed and lowercased (`paper.get("doi", "").strip().lower()`); if non-empty
the key is `"doi:" + doi`, else the trimmed OpenAlex id gives
`"openalex:" + id`, else there is no identity. -/
def identifierOf (p : Paper) : Option String :=
  let doi := pyLower (pyStrip p.doi)
  let openalex_id := pyStrip p.openalex_id
  if doi ≠ "" then some ("doi:" ++ doi)
  else if openalex_id ≠ "" then some ("openalex:" ++ openalex_id)
  else none

/-- Append a paper to its identity group, creating the group at the end of
the (insertion-ordered) group list if the key is new — this is the Python
`dict` behaviour of `paper_groups`. -/
def addToGroups (gs : List (String × List Paper)) (k : String) (p : Paper) :
    List (String × List Paper) :=
  match gs with
  | [] => [(k, [p])]
  | (k0, ps) :: rest =>
      if k0 = k then (k0, ps ++ [p]) :: rest
      else (k0, ps) :: addToGroups rest k p

/-- One step of the grouping loop (lines 101-123): a paper with an identity
joins its group, a paper without one is appended to `no_identifier_papers`. -/
def insertPaper (acc : List (String × List Paper) × List Paper) (p : Paper) :
    List (String × List Paper) × List Paper :=
  match identifierOf p with
  | some k => (addToGroups acc.1 k p, acc.2)
  | none => (acc.1, acc.2 ++ [p])

/-- The grouping pass: returns the insertion-ordered identity groups and the
no-identifier papers in input order. -/
def groupPapers (papers : List Paper) : List (String × List Paper) × List Paper :=
  papers.foldl insertPaper ([], [])

/-- The decisions of a group as the conflict check reads them
(`p.get("decision", "UNKNOWN")`, line 146). -/
def groupDecisions (g : List Paper) : List String :=
  g.map fun p => p.decision.getD "UNKNOWN"

/-- Conflict check `len(set(decisions)) == 1` (line 149): the group is unanimous. -/
def unanimous_b (g : List Paper) : Bool :=
  (groupDecisions g).dedup.length == 1

/-- The `duplicate_sources` entry built for one group member (lines 153-161). -/
def decisionRecordOf (p : Paper) : DecisionRecord :=
  { source_query_id := p.source_query_id
    source_query_description := p.source_query_description
    decision := p.decision
    confidence := p.confidence
    reason := p.reason }

/-- The `original_decisions` entry built for one group member
(lines 225-232 and the identical blocks of the other branches). -/
def origDecisionOf (p : Paper) : OrigDecision :=
  { query := p.source_query_description
    decision := p.decision
    confidence := p.confidence
    reason := p.reason }

def origDecisions (g : List Paper) : List OrigDecision :=
  g.map origDecisionOf

/-- Python `repr` of an optional string: `None` or the value in single
quotes — used in the f-string `{[p.get('decision') for p in ...]}`. -/
def pyReprOpt (s : Option String) : String :=
  match s with
  | none => "None"
  | some v => "\x27" ++ v ++ "\x27"

/-- Python `repr` of a list of optional strings. -/
def pyReprList (l : List (Option String)) : String :=
  "[" ++ joinSep ", " (l.map pyReprOpt) ++ "]"

/-- Choices 1 and 2 of the conflict prompt (lines 216-256): copy the first
member, overwrite decision / confidence / reason and attach the
`conflict_resolution` block. -/
def forceResolve (g : List Paper) (p0 : Paper) (now dec method : String) : Paper :=
  { p0 with
    decision := some dec
    confidence := some 1
    reason := some ("Manual conflict resolution: User chose to " ++ dec ++
      " (had conflicts: " ++ pyReprList (g.map Paper.decision) ++ ")")
    conflict_resolution := some
      { method := method
        timestamp := now
        selected_confidence := none
        selected_from_query := none
        original_decisions := origDecisions g } }

/-- Python `max(conflicted_papers, key=lambda p: p.get("confidence", 0.0))`:
`max` keeps the current element on ties, so it returns the first member
attaining the maximum confidence. -/
def maxConfPaper (p0 : Paper) (ps : List Paper) : Paper :=
  ps.foldl (fun best q => if best.confidence.getD 0 < q.confidence.getD 0 then q else best) p0

/-- Choice 3 (lines 258-277): copy the highest-confidence member and attach
the `highest_confidence` resolution block. -/
def highestConfResolve (p0 : Paper) (ps : List Paper) (now : String) : Paper :=
  let hp := maxConfPaper p0 ps
  { hp with
    conflict_resolution := some
      { method := "highest_confidence"
        timestamp := now
        selected_confidence := some hp.confidence
        selected_from_query := some hp.source_query_description
        original_decisions := origDecisions (p0 :: ps) } }

/-- Choice 4 (lines 279-297): copy the last member of the group and attach
the `most_recent` resolution block. -/
def mostRecentResolve (p0 : Paper) (ps : List Paper) (now : String) : Paper :=
  let mp := ps.getLastD p0
  { mp with
    conflict_resolution := some
      { method := "most_recent"
        timestamp := now
        selected_confidence := none
        selected_from_query := some mp.source_query_description
        original_decisions := origDecisions (p0 :: ps) } }

/-- The prompt loop `resolve_screening_conflict` (lines 174-319): the `while True` loop over
`input()`.  The collaborator's input lines are the `choices` list; each line
is stripped; `"1"`-`"4"` resolve and return, `"5"` or anything else loops.
An empty list models the `EOFError` of a missing collaborator (and an empty
group the `IndexError` of `conflicted_papers[0]`); both surface as `none`.
On success the unconsumed input lines are returned alongside the paper. -/
def resolve_screening_conflict (g : List Paper) (now : String) :
    List String → Option (Paper × List String)
  | [] => none
  | c :: rest =>
    match g with
    | [] => none
    | p0 :: ps =>
      let choice := pyStrip c
      if choice = "1" then some (forceResolve g p0 now "INCLUDE" "manual_include", rest)
      else if choice = "2" then some (forceResolve g p0 now "EXCLUDE" "manual_exclude", rest)
      else if choice = "3" then some (highestConfResolve p0 ps now, rest)
      else if choice = "4" then some (mostRecentResolve p0 ps now, rest)
      else resolve_screening_conflict g now rest

/-- The group-processing loop of `deduplicate_with_conflict_resolution`
(lines 137-167), threading the collaborator input through the conflicting
groups.  Returns the emitted papers (one per group, in group order), the
`duplicates_removed` and `conflicts_resolved` counters, and the unconsumed
input lines. -/
def dedupGroups (now : String) :
    List (String × List Paper) → List String →
    Option (List Paper × Nat × Nat × List String)
  | [], choices => some ([], 0, 0, choices)
  | (_, g) :: rest, choices =>
    match g with
    | [] => none
    | [p] =>
        (dedupGroups now rest choices).map fun r => (p :: r.1, r.2.1, r.2.2.1, r.2.2.2)
    | p :: q :: qs =>
        let g := p :: q :: qs
        if unanimous_b g then
          let rep := { p with duplicate_sources := some (g.map decisionRecordOf) }
          (dedupGroups now rest choices).map fun r =>
            (rep :: r.1, r.2.1 + (g.length - 1), r.2.2.1, r.2.2.2)
        else
          match resolve_screening_conflict g now choices with
          | none => none
          | some (resolved, choices2) =>
              (dedupGroups now rest choices2).map fun r =>
                (resolved :: r.1, r.2.1 + (g.length - 1), r.2.2.1 + 1, r.2.2.2)

/-- Top level `deduplicate_with_conflict_resolution` (lines 86-172): group, process the
groups in insertion order, then append the no-identifier papers unchanged.
Returns `(unique_papers, duplicates_removed, conflicts_resolved)`, or `none`
if a conflict prompt fails (no collaborator input left). -/
def deduplicate_with_conflict_resolution (papers : List Paper) (now : String)
    (choices : List String) : Option (List Paper × Nat × Nat) :=
  if papers.isEmpty then some ([], 0, 0)
  else
    let gp := groupPapers papers
    match dedupGroups now gp.1 choices with
    | none => none
    | some (ups, dr, cr, _) => some (ups ++ gp.2, dr, cr)

/-! ### Structural lemmas about the embedding -/

theorem dedup_length_eq_one_iff (l : List String) (hl : l ≠ []) :
    l.dedup.length = 1 ↔ ∀ a ∈ l, ∀ b ∈ l, a = b := by
  constructor
  · intro h a ha b hb
    obtain ⟨c, hc⟩ := List.length_eq_one.mp h
    have ha2 : a ∈ l.dedup := List.mem_dedup.mpr ha
    have hb2 : b ∈ l.dedup := List.mem_dedup.mpr hb
    rw [hc] at ha2 hb2
    simp only [List.mem_singleton] at ha2 hb2
    rw [ha2, hb2]
  · intro h
    obtain ⟨x, xs, rfl⟩ := List.exists_cons_of_ne_nil hl
    have hx : x ∈ (x :: xs).dedup := List.mem_dedup.mpr (by simp)
    have hsub : ∀ y ∈ (x :: xs).dedup, y = x := fun y hy =>
      h y (List.mem_dedup.mp hy) x (by simp)
    have hn := List.nodup_dedup (x :: xs)
    cases hdd : (x :: xs).dedup with
    | nil => rw [hdd] at hx; simp at hx
    | cons y ys =>
      rw [hdd] at hsub hn
      have hy : y = x := hsub y (by simp)
      have hys : ys = [] := by
        cases ys with
        | nil => rfl
        | cons z zs =>
          have hz : z = x := hsub z (by simp)
          rw [List.nodup_cons] at hn
          exact absurd (show y ∈ z :: zs by rw [hy, hz]; simp) hn.1
      subst hys
      rfl

theorem unanimous_b_iff (g : List Paper) (hg : g ≠ []) :
    unanimous_b g = true ↔
      ∀ p ∈ g, ∀ q ∈ g, p.decision.getD "UNKNOWN" = q.decision.getD "UNKNOWN" := by
  have hne : groupDecisions g ≠ [] := by
    intro h
    exact hg (List.map_eq_nil_iff.mp h)
  rw [unanimous_b, beq_iff_eq, dedup_length_eq_one_iff _ hne]
  constructor
  · intro h p hp q hq
    exact h _ (List.mem_map_of_mem _ hp) _ (List.mem_map_of_mem _ hq)
  · intro h a ha b hb
    obtain ⟨p, hp, rfl⟩ := List.mem_map.mp ha
    obtain ⟨q, hq, rfl⟩ := List.mem_map.mp hb
    exact h p hp q hq

theorem unanimous_b_singleton (p : Paper) : unanimous_b [p] = true := by
  rw [unanimous_b_iff _ (by simp)]
  intro a ha b hb
  simp only [List.mem_singleton] at ha hb
  rw [ha, hb]

theorem foldl_insertPaper_snd (papers : List Paper) :
    ∀ (gs : List (String × List Paper)) (ns : List Paper),
      (papers.foldl insertPaper (gs, ns)).2 =
        ns ++ papers.filter fun p => (identifierOf p).isNone := by
  induction papers with
  | nil => intro gs ns; simp
  | cons p ps ih =>
    intro gs ns
    rw [List.foldl_cons]
    cases hid : identifierOf p with
    | some k =>
      rw [show insertPaper (gs, ns) p = (addToGroups gs k p, ns) by
        simp [insertPaper, hid]]
      rw [ih]
      simp [List.filter_cons, hid]
    | none =>
      rw [show insertPaper (gs, ns) p = (gs, ns ++ [p]) by simp [insertPaper, hid]]
      rw [ih]
      simp [List.filter_cons, hid]

/-- The no-identifier papers come out of the grouping pass exactly as the
input-order sublist of papers without an identifier. -/
theorem groupPapers_snd (papers : List Paper) :
    (groupPapers papers).2 = papers.filter fun p => (identifierOf p).isNone := by
  rw [groupPapers, foldl_insertPaper_snd]
  simp

theorem addToGroups_ne_nil (k : String) (p : Paper) :
    ∀ (gs : List (String × List Paper)), (∀ kg ∈ gs, kg.2 ≠ []) →
      ∀ kg ∈ addToGroups gs k p, kg.2 ≠ [] := by
  intro gs
  induction gs with
  | nil =>
    intro _ kg hkg
    simp only [addToGroups, List.mem_singleton] at hkg
    rw [hkg]
    simp
  | cons g0 rest ih =>
    intro h kg hkg
    obtain ⟨k0, ps⟩ := g0
    rw [addToGroups] at hkg
    by_cases hk : k0 = k
    · simp only [if_pos hk, List.mem_cons] at hkg
      rcases hkg with rfl | hkg
      · simp
      · exact h kg (List.mem_cons_of_mem _ hkg)
    · simp only [if_neg hk, List.mem_cons] at hkg
      rcases hkg with rfl | hkg
      · exact h (k0, ps) (by simp)
      · exact ih (fun kg2 hkg2 => h kg2 (List.mem_cons_of_mem _ hkg2)) kg hkg

theorem foldl_insertPaper_fst_ne_nil (papers : List Paper) :
    ∀ (gs : List (String × List Paper)) (ns : List Paper), (∀ kg ∈ gs, kg.2 ≠ []) →
      ∀ kg ∈ (papers.foldl insertPaper (gs, ns)).1, kg.2 ≠ [] := by
  induction papers with
  | nil => intro gs ns h; simpa using h
  | cons p ps ih =>
    intro gs ns h
    rw [List.foldl_cons]
    cases hid : identifierOf p with
    | some k =>
      rw [show insertPaper (gs, ns) p = (addToGroups gs k p, ns) by
        simp [insertPaper, hid]]
      exact ih _ _ (addToGroups_ne_nil k p gs h)
    | none =>
      rw [show insertPaper (gs, ns) p = (gs, ns ++ [p]) by simp [insertPaper, hid]]
      exact ih _ _ h

/-- Every identity group built by the grouping pass is non-empty. -/
theorem groupPapers_fst_ne_nil (papers : List Paper) :
    ∀ kg ∈ (groupPapers papers).1, kg.2 ≠ [] :=
  foldl_insertPaper_fst_ne_nil papers [] [] (by simp)

theorem forall₂_exists_right {α β : Type} {R : α → β → Prop} :
    ∀ {l1 : List α} {l2 : List β}, List.Forall₂ R l1 l2 → ∀ a ∈ l1, ∃ b ∈ l2, R a b := by
  intro l1 l2 h
  induction h with
  | nil => intro a ha; simp at ha
  | cons hR _ ih =>
    intro a ha
    rcases List.mem_cons.mp ha with rfl | ha2
    · exact ⟨_, by simp, hR⟩
    · obtain ⟨b, hb, hRb⟩ := ih a ha2
      exact ⟨b, by simp [hb], hRb⟩

theorem string_append_cancel_left (s a b : String) (h : s ++ a = s ++ b) : a = b := by
  have hd : s.data ++ a.data = s.data ++ b.data := by
    have h2 := congrArg String.data h
    simpa [String.data_append] using h2
  have h3 : a.data = b.data := List.append_cancel_left hd
  cases a
  cases b
  exact congrArg String.mk h3

/-- Any successful run of the conflict prompt attaches a `conflict_resolution`
block whose `original_decisions` list the whole group in order, stamped with
the current wall-clock reading, whatever option the collaborator picked. -/
theorem resolve_screening_conflict_spec (g : List Paper) (now : String) :
    ∀ (choices : List String) (r : Paper) (rest : List String),
      resolve_screening_conflict g now choices = some (r, rest) →
      ∃ c, r.conflict_resolution = some c ∧
        c.original_decisions = origDecisions g ∧ c.timestamp = now := by
  intro choices
  induction choices with
  | nil => intro r rest h; simp [resolve_screening_conflict] at h
  | cons c cs ih =>
    intro r rest h
    cases g with
    | nil => simp [resolve_screening_conflict] at h
    | cons p0 ps =>
      simp only [resolve_screening_conflict] at h
      split_ifs at h with h1 h2 h3 h4
      · rw [Option.some.injEq, Prod.mk.injEq] at h
        rw [← h.1]
        exact ⟨_, rfl, rfl, rfl⟩
      · rw [Option.some.injEq, Prod.mk.injEq] at h
        rw [← h.1]
        exact ⟨_, rfl, rfl, rfl⟩
      · rw [Option.some.injEq, Prod.mk.injEq] at h
        rw [← h.1]
        exact ⟨_, rfl, rfl, rfl⟩
      · rw [Option.some.injEq, Prod.mk.injEq] at h
        rw [← h.1]
        exact ⟨_, rfl, rfl, rfl⟩
      · exact ih r rest h

/-- The relation the merge establishes between each identity group (taken in
insertion order) and the single paper emitted for it: a singleton group passes
through unchanged, a unanimous multi-member group yields its first member with
the `duplicate_sources` audit list attached, and a conflicting group yields a
paper carrying a `conflict_resolution` block over the whole group. -/
def groupOutputRel (now : String) (g : List Paper) (out : Paper) : Prop :=
  match g with
  | [] => False
  | p0 :: ps =>
    (ps = [] → out = p0) ∧
    (ps ≠ [] → unanimous_b (p0 :: ps) = true →
      out = { p0 with duplicate_sources := some ((p0 :: ps).map decisionRecordOf) }) ∧
    (unanimous_b (p0 :: ps) = false →
      ∃ c, out.conflict_resolution = some c ∧
        c.original_decisions = origDecisions (p0 :: ps) ∧ c.timestamp = now)

/-- Main correspondence: a successful group-processing pass emits exactly one
paper per identity group, in group order and related by `groupOutputRel`, and
its counters are the duplicate count `sum (size - 1)` and the number of
non-unanimous groups. -/
theorem dedupGroups_spec (now : String) :
    ∀ (groups : List (String × List Paper)) (choices : List String)
      (ups : List Paper) (dr cr : Nat) (ch : List String),
      dedupGroups now groups choices = some (ups, dr, cr, ch) →
      List.Forall₂ (fun (kg : String × List Paper) out => groupOutputRel now kg.2 out)
        groups ups ∧
      dr = (groups.map fun kg => kg.2.length - 1).sum ∧
      cr = groups.countP fun kg => !unanimous_b kg.2 := by
  intro groups
  induction groups with
  | nil =>
    intro choices ups dr cr ch h
    simp only [dedupGroups, Option.some.injEq, Prod.mk.injEq] at h
    obtain ⟨h1, h2, h3, _⟩ := h
    rw [← h1, ← h2, ← h3]
    exact ⟨List.Forall₂.nil, rfl, rfl⟩
  | cons kg rest ih =>
    intro choices ups dr cr ch h
    obtain ⟨k, g⟩ := kg
    cases g with
    | nil => simp [dedupGroups] at h
    | cons p ps =>
      cases ps with
      | nil =>
        simp only [dedupGroups, Option.map_eq_some'] at h
        obtain ⟨⟨ups', dr', cr', ch'⟩, hrec, heq⟩ := h
        rw [Prod.mk.injEq, Prod.mk.injEq, Prod.mk.injEq] at heq
        obtain ⟨hu, hd2, hc2, _⟩ := heq
        obtain ⟨hf, hdr, hcr⟩ := ih choices ups' dr' cr' ch' hrec
        rw [← hu, ← hd2, ← hc2]
        refine ⟨List.Forall₂.cons ?_ hf, ?_, ?_⟩
        · exact ⟨fun _ => rfl, fun hne _ => absurd rfl hne,
            fun hfalse => by rw [unanimous_b_singleton] at hfalse; cases hfalse⟩
        · simpa using hdr
        · rw [hcr, List.countP_cons]
          simp [unanimous_b_singleton]
      | cons q qs =>
        simp only [dedupGroups] at h
        by_cases hu : unanimous_b (p :: q :: qs) = true
        · rw [if_pos hu, Option.map_eq_some'] at h
          obtain ⟨⟨ups', dr', cr', ch'⟩, hrec, heq⟩ := h
          rw [Prod.mk.injEq, Prod.mk.injEq, Prod.mk.injEq] at heq
          obtain ⟨hup, hd2, hc2, _⟩ := heq
          obtain ⟨hf, hdr, hcr⟩ := ih choices ups' dr' cr' ch' hrec
          rw [← hup, ← hd2, ← hc2]
          refine ⟨List.Forall₂.cons ?_ hf, ?_, ?_⟩
          · exact ⟨fun habs => absurd habs (List.cons_ne_nil q qs),
              fun _ _ => rfl,
              fun hfalse => by rw [hu] at hfalse; cases hfalse⟩
          · rw [hdr]
            simp only [List.map_cons, List.sum_cons]
            omega
          · rw [hcr, List.countP_cons]
            simp [hu]
        · rw [if_neg hu] at h
          cases hres : resolve_screening_conflict (p :: q :: qs) now choices with
          | none => rw [hres] at h; cases h
          | some rc =>
            obtain ⟨resolved, choices2⟩ := rc
            rw [hres, Option.map_eq_some'] at h
            obtain ⟨⟨ups', dr', cr', ch'⟩, hrec, heq⟩ := h
            rw [Prod.mk.injEq, Prod.mk.injEq, Prod.mk.injEq] at heq
            obtain ⟨hup, hd2, hc2, _⟩ := heq
            obtain ⟨hf, hdr, hcr⟩ := ih choices2 ups' dr' cr' ch' hrec
            rw [← hup, ← hd2, ← hc2]
            have hub : unanimous_b (p :: q :: qs) = false := by
              cases hbv : unanimous_b (p :: q :: qs) with
              | false => rfl
              | true => exact absurd hbv hu
            refine ⟨List.Forall₂.cons ?_ hf, ?_, ?_⟩
            · exact ⟨fun habs => absurd habs (List.cons_ne_nil q qs),
                fun _ htrue => absurd htrue hu,
                fun _ => resolve_screening_conflict_spec _ now choices resolved choices2 hres⟩
            · rw [hdr]
              simp only [List.map_cons, List.sum_cons]
              omega
            · rw [hcr, List.countP_cons]
              simp [hub]

/-- Unfolding of the top-level merge: a successful run is a successful group
pass whose output is extended with the no-identifier papers. -/
theorem deduplicate_spec (papers : List Paper) (now : String) (choices : List String)
    (ups : List Paper) (dr cr : Nat)
    (h : deduplicate_with_conflict_resolution papers now choices = some (ups, dr, cr)) :
    ∃ gups ch, dedupGroups now (groupPapers papers).1 choices = some (gups, dr, cr, ch) ∧
      ups = gups ++ (groupPapers papers).2 := by
  simp only [deduplicate_with_conflict_resolution] at h
  by_cases hemp : papers.isEmpty
  · rw [if_pos hemp] at h
    have hnil : papers = [] := by
      cases papers with
      | nil => rfl
      | cons a as => simp [List.isEmpty] at hemp
    subst hnil
    rw [Option.some.injEq, Prod.mk.injEq, Prod.mk.injEq] at h
    obtain ⟨h1, h2, h3⟩ := h
    exact ⟨[], choices, by rw [← h2, ← h3]; rfl, by rw [← h1]; rfl⟩
  · rw [if_neg hemp] at h
    cases hd : dedupGroups now (groupPapers papers).1 choices with
    | none => rw [hd] at h; cases h
    | some r =>
      obtain ⟨gups, dr', cr', ch⟩ := r
      rw [hd] at h
      rw [Option.some.injEq, Prod.mk.injEq, Prod.mk.injEq] at h
      obtain ⟨h1, h2, h3⟩ := h
      exact ⟨gups, ch, by rw [h2, h3], h1.symm⟩

theorem sum_sub_one_filter (l : List (String × List Paper)) :
    ((l.filter fun kg => decide (1 < kg.2.length)).map fun kg => kg.2.length - 1).sum =
      (l.map fun kg => kg.2.length - 1).sum := by
  induction l with
  | nil => rfl
  | cons a as ih =>
    by_cases h1 : 1 < a.2.length
    · simp [List.filter_cons, h1, ih]
    · have h0 : a.2.length - 1 = 0 := by omega
      simp [List.filter_cons, h1, ih, h0]

/-! ### Auxiliary definitions for the claims -/

/-- A minimal concrete record: only the fields relevant to identity and
screening decisions are set, everything else is empty/absent. -/
def samplePaper (doi : String) (dec : Option String) (conf : Option ℚ) : Paper :=
  { title := "", doi := doi, openalex_id := "", decision := dec, confidence := conf,
    reason := none, source_query_id := none, source_query_description := none,
    meta := "", duplicate_sources := none, conflict_resolution := none }

/-- The rational 9/10, i.e. a confidence of 0.9. -/
def confNine : ℚ := ⟨9, 10, by norm_num, by norm_num⟩

/-- The rational 4/5, i.e. a confidence of 0.8. -/
def confEight : ℚ := ⟨4, 5, by norm_num, by norm_num⟩

/-- Drop the characters up to and including the first occurrence of `sep`,
or `none` when `sep` does not occur. -/
def dropThrough (sep : List Char) : List Char → Option (List Char)
  | [] => none
  | x :: xs =>
      if (x :: xs).take sep.length = sep then some ((x :: xs).drop sep.length)
      else dropThrough sep xs

/-- Modelled from the spec: the Identity Resolver is specified to "strip any
URL scheme/host prefix" from the DOI; this drops a leading `scheme://host/`
segment when one is present.  The source performs no such stripping, so this
definition exists only to state the spec-side normalization. -/
def stripSchemeHost (s : String) : String :=
  match dropThrough "://".data s.data with
  | none => s
  | some afterScheme => ⟨(afterScheme.dropWhile fun c => c ≠ Char.ofNat 47).drop 1⟩

/-- Modelled from the spec: DOI normalization as the spec words it — trim,
lowercase, strip any URL scheme/host prefix. -/
def specNormalizeDoi (doi : String) : String :=
  stripSchemeHost (pyLower (pyStrip doi))

/-- Blank out the wall-clock reading of a `conflict_resolution` block. -/
def eraseTsCR (c : ConflictResolution) : ConflictResolution :=
  { c with timestamp := "" }

/-- Blank out the wall-clock reading carried by a paper, leaving every other
field intact. -/
def eraseTs (p : Paper) : Paper :=
  { p with conflict_resolution := p.conflict_resolution.map eraseTsCR }

/-- Python `max` over the group keyed by `confidence` with default `0.0`:
the result is a member, every member's (defaulted) confidence is `≤` its
confidence, and all members strictly before it have strictly smaller
confidence (first occurrence wins ties). -/
theorem maxConfPaper_spec (p0 : Paper) (ps : List Paper) :
    ∃ l1 l2, p0 :: ps = l1 ++ maxConfPaper p0 ps :: l2 ∧
      (∀ q ∈ l1, q.confidence.getD 0 < (maxConfPaper p0 ps).confidence.getD 0) ∧
      (∀ q ∈ p0 :: ps, q.confidence.getD 0 ≤ (maxConfPaper p0 ps).confidence.getD 0) := by
  induction ps generalizing p0 with
  | nil => exact ⟨[], [], rfl, by simp, by simp [maxConfPaper]⟩
  | cons q qs ih =>
    rw [show maxConfPaper p0 (q :: qs) =
        maxConfPaper (if p0.confidence.getD 0 < q.confidence.getD 0 then q else p0) qs from rfl]
    by_cases hlt : p0.confidence.getD 0 < q.confidence.getD 0
    · rw [if_pos hlt]
      obtain ⟨l1, l2, hsplit, hl1, hmax⟩ := ih q
      refine ⟨p0 :: l1, l2, by rw [List.cons_append, ← hsplit], ?_, ?_⟩
      · intro x hx
        rcases List.mem_cons.mp hx with rfl | hx2
        · exact lt_of_lt_of_le hlt (hmax q (by simp))
        · exact hl1 x hx2
      · intro x hx
        rcases List.mem_cons.mp hx with rfl | hx2
        · exact le_of_lt (lt_of_lt_of_le hlt (hmax q (by simp)))
        · exact hmax x hx2
    · rw [if_neg hlt]
      obtain ⟨l1, l2, hsplit, hl1, hmax⟩ := ih p0
      have hqle : q.confidence.getD 0 ≤ (maxConfPaper p0 qs).confidence.getD 0 :=
        le_trans (not_lt.mp hlt) (hmax p0 (by simp))
      cases l1 with
      | nil =>
        have hm : p0 = maxConfPaper p0 qs := by
          have := hsplit
          rw [List.nil_append] at this
          exact (List.cons.injEq _ _ _ _).mp this |>.1
        have hl2 : qs = l2 := by
          have := hsplit
          rw [List.nil_append] at this
          exact (List.cons.injEq _ _ _ _).mp this |>.2
        refine ⟨[], q :: l2, ?_, by simp, ?_⟩
        · rw [List.nil_append, ← hm, ← hl2]
        · intro x hx
          rcases List.mem_cons.mp hx with rfl | hx2
          · exact hmax x (by simp)
          · rcases List.mem_cons.mp hx2 with rfl | hx3
            · exact hqle
            · exact hmax x (by simp [hx3])
      | cons a l1t =>
        have ha : p0 = a := by
          have := hsplit
          rw [List.cons_append] at this
          exact (List.cons.injEq _ _ _ _).mp this |>.1
        have htl : qs = l1t ++ maxConfPaper p0 qs :: l2 := by
          have := hsplit
          rw [List.cons_append] at this
          exact (List.cons.injEq _ _ _ _).mp this |>.2
        refine ⟨p0 :: q :: l1t, l2, ?_, ?_, ?_⟩
        · rw [List.cons_append, List.cons_append, ← htl]
        · have hp0lt : p0.confidence.getD 0 < (maxConfPaper p0 qs).confidence.getD 0 := by
            have h := hl1 a (by simp)
            rw [← ha] at h
            exact h
          intro x hx
          rcases List.mem_cons.mp hx with rfl | hx2
          · exact hp0lt
          · rcases List.mem_cons.mp hx2 with rfl | hx3
            · exact lt_of_le_of_lt (not_lt.mp hlt) hp0lt
            · exact hl1 x (by simp [hx3])
        · intro x hx
          rcases List.mem_cons.mp hx with rfl | hx2
          · exact hmax x (by simp)
          · rcases List.mem_cons.mp hx2 with rfl | hx3
            · exact hqle
            · exact hmax x (by simp [hx3])

/-- If every confidence in the group is absent, Python `max` keyed by
`confidence` (default 0.0) returns the first member: all keys tie at 0. -/
theorem maxConfPaper_all_missing (p0 : Paper) :
    ∀ ps : List Paper, p0.confidence = none → (∀ q ∈ ps, q.confidence = none) →
      maxConfPaper p0 ps = p0 := by
  intro ps
  induction ps with
  | nil => intro _ _; rfl
  | cons q qs ih =>
    intro h0 hqs
    rw [show maxConfPaper p0 (q :: qs) =
        maxConfPaper (if p0.confidence.getD 0 < q.confidence.getD 0 then q else p0) qs from rfl]
    rw [h0, hqs q (by simp)]
    rw [if_neg (by simp)]
    exact ih h0 fun x hx => hqs x (by simp [hx])

/-- With no collaborator input at all, the group pass dies at the first
conflicting group: the prompt loop hits end-of-input immediately. -/
theorem dedupGroups_no_input_none (now : String) :
    ∀ groups : List (String × List Paper),
      (∃ kg ∈ groups, unanimous_b kg.2 = false) →
      dedupGroups now groups [] = none := by
  intro groups
  induction groups with
  | nil =>
    intro h
    obtain ⟨kg, hkg, _⟩ := h
    simp at hkg
  | cons kg0 rest ih =>
    intro h
    obtain ⟨k, g⟩ := kg0
    cases g with
    | nil => simp [dedupGroups]
    | cons p ps =>
      cases ps with
      | nil =>
        obtain ⟨kg, hkg, hfalse⟩ := h
        rcases List.mem_cons.mp hkg with rfl | hmem
        · rw [unanimous_b_singleton] at hfalse
          cases hfalse
        · simp only [dedupGroups]
          rw [ih ⟨kg, hmem, hfalse⟩]
          rfl
      | cons q qs =>
        by_cases hu : unanimous_b (p :: q :: qs) = true
        · obtain ⟨kg, hkg, hfalse⟩ := h
          rcases List.mem_cons.mp hkg with rfl | hmem
          · rw [hu] at hfalse
            cases hfalse
          · simp only [dedupGroups, if_pos hu]
            rw [ih ⟨kg, hmem, hfalse⟩]
            rfl
        · simp only [dedupGroups, if_neg hu]
          rfl

/-- The outcome of the conflict prompt depends on the clock reading only
through the recorded `timestamp`: erasing it, two runs at different times
agree, and consume the same input. -/
theorem resolve_conflict_time_inv (g : List Paper) (t1 t2 : String) :
    ∀ choices : List String,
      (resolve_screening_conflict g t1 choices).map (fun rc => (eraseTs rc.1, rc.2)) =
      (resolve_screening_conflict g t2 choices).map (fun rc => (eraseTs rc.1, rc.2)) := by
  intro choices
  induction choices with
  | nil => rfl
  | cons c cs ih =>
    cases g with
    | nil => rfl
    | cons p0 ps =>
      simp only [resolve_screening_conflict]
      split_ifs
      · rfl
      · rfl
      · rfl
      · rfl
      · exact ih

/-- Congruence step: if two optional group-pass results agree after erasing
timestamps, so do the results of prepending papers that agree after erasing
timestamps and bumping the counters identically. -/
theorem map_erase_cong (x y : Paper) (hxy : eraseTs x = eraseTs y) (F G : Nat → Nat) :
    ∀ {o1 o2 : Option (List Paper × Nat × Nat × List String)},
      o1.map (fun r => (r.1.map eraseTs, r.2)) = o2.map (fun r => (r.1.map eraseTs, r.2)) →
      ((o1.map fun r => (x :: r.1, F r.2.1, G r.2.2.1, r.2.2.2)).map
          fun r => (r.1.map eraseTs, r.2)) =
      ((o2.map fun r => (y :: r.1, F r.2.1, G r.2.2.1, r.2.2.2)).map
          fun r => (r.1.map eraseTs, r.2)) := by
  intro o1 o2 h
  cases o1 with
  | none =>
    cases o2 with
    | none => rfl
    | some r2 => simp at h
  | some r1 =>
    cases o2 with
    | none => simp at h
    | some r2 =>
      obtain ⟨u1, a1, b1, c1⟩ := r1
      obtain ⟨u2, a2, b2, c2⟩ := r2
      simp only [Option.map_some', Option.some.injEq, Prod.mk.injEq] at h ⊢
      obtain ⟨hm, ha, hb, hc⟩ := h
      refine ⟨?_, ?_, ?_, ?_⟩
      · simp only [List.map_cons, hm, hxy]
      · rw [ha]
      · rw [hb]
      · exact hc

/-- The group pass depends on the clock reading only through the recorded
timestamps. -/
theorem dedupGroups_time_inv (t1 t2 : String) :
    ∀ (groups : List (String × List Paper)) (choices : List String),
      (dedupGroups t1 groups choices).map (fun r => (r.1.map eraseTs, r.2)) =
      (dedupGroups t2 groups choices).map (fun r => (r.1.map eraseTs, r.2)) := by
  intro groups
  induction groups with
  | nil => intro choices; rfl
  | cons kg0 rest ih =>
    intro choices
    obtain ⟨k, g⟩ := kg0
    cases g with
    | nil => rfl
    | cons p ps =>
      cases ps with
      | nil =>
        simp only [dedupGroups]
        exact map_erase_cong p p rfl (fun n => n) (fun n => n) (ih choices)
      | cons q qs =>
        by_cases hu : unanimous_b (p :: q :: qs) = true
        · simp only [dedupGroups, if_pos hu]
          exact map_erase_cong _ _ rfl (fun n => n + ((p :: q :: qs).length - 1))
            (fun n => n) (ih choices)
        · have hres := resolve_conflict_time_inv (p :: q :: qs) t1 t2 choices
          simp only [dedupGroups, if_neg hu]
          cases hr1 : resolve_screening_conflict (p :: q :: qs) t1 choices with
          | none =>
            cases hr2 : resolve_screening_conflict (p :: q :: qs) t2 choices with
            | none => rfl
            | some rc2 => rw [hr1, hr2] at hres; simp at hres
          | some rc1 =>
            cases hr2 : resolve_screening_conflict (p :: q :: qs) t2 choices with
            | none => rw [hr1, hr2] at hres; simp at hres
            | some rc2 =>
              obtain ⟨res1, ch1⟩ := rc1
              obtain ⟨res2, ch2⟩ := rc2
              rw [hr1, hr2] at hres
              simp only [Option.map_some', Option.some.injEq, Prod.mk.injEq] at hres
              obtain ⟨hre, hch⟩ := hres
              subst hch
              exact map_erase_cong res1 res2 hre (fun n => n + ((p :: q :: qs).length - 1))
                (fun n => n + 1) (ih ch1)

/-! ### Claims -/

/-- Claim C1, counterexample: a conflicting two-member group (same DOI,
decisions INCLUDE vs EXCLUDE) resolved by the collaborator choosing option 1
emits a merged paper with NO `duplicate_sources` key at all — the claim says
every multi-member group's output carries `duplicateSources`, "whether the
group was unanimous or conflicting". -/
theorem audit_completeness_counterexample :
    ((deduplicate_with_conflict_resolution
        [samplePaper "10.1/c" (some "INCLUDE") none,
         samplePaper "10.1/c" (some "EXCLUDE") none] "T" ["1"]).map
      fun r => r.1.map Paper.duplicate_sources) = some [none] := by decide

/-- Claim C1, amended: for every unanimous multi-member identity group the
merged paper carries `duplicate_sources` with exactly one record per member in
group order, whose (queryId, decision, confidence) triples equal the group's;
for a conflicting group no `duplicate_sources` list is attached — the audit
trail is instead `conflict_resolution.original_decisions`, one record per
member in group order, carrying (queryDescription, decision, confidence)
(and no query id). -/
theorem audit_completeness (papers : List Paper) (now : String) (choices : List String)
    (ups : List Paper) (dr cr : Nat)
    (h : deduplicate_with_conflict_resolution papers now choices = some (ups, dr, cr)) :
    ∀ kg ∈ (groupPapers papers).1, 1 < kg.2.length →
      ∃ out ∈ ups,
        (unanimous_b kg.2 = true →
          out.duplicate_sources = some (kg.2.map decisionRecordOf) ∧
          (out.duplicate_sources.getD []).length = kg.2.length ∧
          ((out.duplicate_sources.getD []).map fun d =>
              (d.source_query_id, d.decision, d.confidence)) =
            kg.2.map fun p => (p.source_query_id, p.decision, p.confidence)) ∧
        (unanimous_b kg.2 = false →
          ∃ c, out.conflict_resolution = some c ∧
            c.original_decisions.length = kg.2.length ∧
            ((c.original_decisions.map fun d => (d.query, d.decision, d.confidence)) =
              kg.2.map fun p => (p.source_query_description, p.decision, p.confidence))) := by
  obtain ⟨gups, ch, hd, hup⟩ := deduplicate_spec papers now choices ups dr cr h
  obtain ⟨hf, _, _⟩ := dedupGroups_spec now _ choices gups dr cr ch hd
  intro kg hkg hlen
  obtain ⟨out, hout, hrel⟩ := forall₂_exists_right hf kg hkg
  refine ⟨out, by rw [hup]; exact List.mem_append_left _ hout, ?_, ?_⟩
  · intro hu
    cases hg2 : kg.2 with
    | nil => rw [hg2] at hlen; simp at hlen
    | cons p0 ps =>
      rw [hg2] at hrel
      have hpsne : ps ≠ [] := by
        intro habs
        rw [habs] at hg2
        rw [hg2] at hlen
        simp at hlen
      have hrep := hrel.2.1 hpsne (by rw [← hg2]; exact hu)
      rw [hrep, ← hg2]
      refine ⟨rfl, ?_, ?_⟩
      · simp
      · rw [Option.getD_some, List.map_map]
        rfl
  · intro hu
    cases hg2 : kg.2 with
    | nil => rw [hg2] at hlen; simp at hlen
    | cons p0 ps =>
      rw [hg2] at hrel
      obtain ⟨c, hc, horig, _⟩ := hrel.2.2 (by rw [← hg2]; exact hu)
      refine ⟨c, hc, ?_, ?_⟩
      · rw [horig, ← hg2, origDecisions]
        simp
      · rw [horig, ← hg2, origDecisions, List.map_map]
        rfl

/-- The four-paper input of the C1 witness: one unanimous DOI group
(`10.1/u`) and one conflicting DOI group (`10.1/v`). -/
def auditPapers : List Paper :=
  [samplePaper "10.1/u" (some "INCLUDE") none,
   samplePaper "10.1/u" (some "INCLUDE") none,
   samplePaper "10.1/v" (some "INCLUDE") none,
   samplePaper "10.1/v" (some "EXCLUDE") none]

/-- The unanimous group of `auditPapers`. -/
def auditGroupU : List Paper :=
  [samplePaper "10.1/u" (some "INCLUDE") none,
   samplePaper "10.1/u" (some "INCLUDE") none]

/-- Claim C1, witness: merging `auditPapers` with the conflict resolved by
option 4; the unanimous group's output carries the full per-member audit
list. -/
theorem audit_completeness_witness :
    ∃ ups dr cr,
      deduplicate_with_conflict_resolution auditPapers "T" ["4"] = some (ups, dr, cr) ∧
      ∃ out ∈ ups,
        (unanimous_b auditGroupU = true →
          out.duplicate_sources = some (auditGroupU.map decisionRecordOf) ∧
          (out.duplicate_sources.getD []).length = auditGroupU.length ∧
          ((out.duplicate_sources.getD []).map fun d =>
              (d.source_query_id, d.decision, d.confidence)) =
            auditGroupU.map fun p => (p.source_query_id, p.decision, p.confidence)) ∧
        (unanimous_b auditGroupU = false →
          ∃ c, out.conflict_resolution = some c ∧
            c.original_decisions.length = auditGroupU.length ∧
            ((c.original_decisions.map fun d => (d.query, d.decision, d.confidence)) =
              auditGroupU.map fun p =>
                (p.source_query_description, p.decision, p.confidence))) := by
  obtain ⟨ups, dr, cr, h⟩ :
      ∃ u d c, deduplicate_with_conflict_resolution auditPapers "T" ["4"] = some (u, d, c) :=
    ⟨_, _, _, rfl⟩
  exact ⟨ups, dr, cr, h,
    audit_completeness auditPapers "T" ["4"] ups dr cr h ("doi:10.1/u", auditGroupU)
      (by decide) (by decide)⟩

/-- Claim C2, counterexample: the code never strips a URL scheme/host from
the DOI.  Two records whose DOIs are equal after the spec's normalization
(`specNormalizeDoi`) but written with and without the `https://doi.org/`
prefix get different identity keys and land in two distinct groups. -/
theorem doi_identity_counterexample :
    specNormalizeDoi (samplePaper "https://doi.org/10.1/x" none none).doi =
        specNormalizeDoi (samplePaper "10.1/x" none none).doi ∧
    specNormalizeDoi (samplePaper "https://doi.org/10.1/x" none none).doi ≠ "" ∧
    identifierOf (samplePaper "https://doi.org/10.1/x" none none) ≠
      identifierOf (samplePaper "10.1/x" none none) ∧
    (groupPapers [samplePaper "https://doi.org/10.1/x" none none,
                  samplePaper "10.1/x" none none]).1.length = 2 :=
  ⟨by decide, by decide, by decide, by decide⟩

/-- Claim C2, amended: the code's DOI normalization is trim + lowercase only
(no scheme/host stripping).  Records whose DOIs agree after trim+lowercase
(and are non-empty) get the identical key `"doi:" + doi`; records whose
trim+lowercased DOIs are non-empty and different get different keys. -/
theorem doi_identity_stability (p1 p2 : Paper) :
    (pyLower (pyStrip p1.doi) ≠ "" → pyLower (pyStrip p1.doi) = pyLower (pyStrip p2.doi) →
      identifierOf p1 = identifierOf p2 ∧
      identifierOf p1 = some ("doi:" ++ pyLower (pyStrip p1.doi))) ∧
    (pyLower (pyStrip p1.doi) ≠ "" → pyLower (pyStrip p2.doi) ≠ "" →
      pyLower (pyStrip p1.doi) ≠ pyLower (pyStrip p2.doi) →
      identifierOf p1 ≠ identifierOf p2) := by
  constructor
  · intro h1 heq
    constructor
    · simp only [identifierOf]
      rw [if_pos h1, if_pos (heq ▸ h1), heq]
    · simp only [identifierOf]
      rw [if_pos h1]
  · intro h1 h2 hne hcontra
    simp only [identifierOf] at hcontra
    rw [if_pos h1, if_pos h2] at hcontra
    exact hne (string_append_cancel_left "doi:" _ _ (Option.some.inj hcontra))

/-- Claim C2, witness: `"10.1/E "` and `" 10.1/e"` normalize equally and get
the same key `doi:10.1/e`; `"10.1/e"` and `"10.1/f"` get different keys. -/
theorem doi_identity_stability_witness :
    (identifierOf (samplePaper "10.1/E " none none) =
        identifierOf (samplePaper " 10.1/e" none none) ∧
      identifierOf (samplePaper "10.1/E " none none) = some "doi:10.1/e") ∧
    identifierOf (samplePaper "10.1/e" none none) ≠
      identifierOf (samplePaper "10.1/f" none none) := by
  constructor
  · exact (doi_identity_stability (samplePaper "10.1/E " none none)
      (samplePaper " 10.1/e" none none)).1 (by decide) (by decide)
  · exact (doi_identity_stability (samplePaper "10.1/e" none none)
      (samplePaper "10.1/f" none none)).2 (by decide) (by decide) (by decide)

/-- Claim C3, counterexample: a merge containing one conflicting group and
one untroubled second group, run with no collaborator input at all, returns
nothing whatsoever — there is no per-group "unresolved" outcome and no
results for the other group either; the whole run dies on the `EOFError` of
the prompt. -/
theorem manual_unavailable_counterexample :
    deduplicate_with_conflict_resolution
      [samplePaper "10.1/m" (some "INCLUDE") none,
       samplePaper "10.1/m" (some "EXCLUDE") none,
       samplePaper "10.1/n" (some "INCLUDE") none] "T" [] = none := by decide

/-- Claim C3, amended: the resolver has no non-interactive mode and no
"unresolved" outcome.  If any identity group is conflicting and no
collaborator input is available, `input()` raises and the entire merge
aborts: no result is returned for any group. -/
theorem manual_unavailable_aborts (papers : List Paper) (now : String)
    (hc : ∃ kg ∈ (groupPapers papers).1, unanimous_b kg.2 = false) :
    deduplicate_with_conflict_resolution papers now [] = none := by
  cases papers with
  | nil =>
    obtain ⟨kg, hkg, _⟩ := hc
    simp [groupPapers] at hkg
  | cons a as =>
    simp only [deduplicate_with_conflict_resolution]
    rw [if_neg (by simp : ¬(a :: as).isEmpty = true)]
    rw [dedupGroups_no_input_none now _ hc]

/-- Claim C3, witness for the amended theorem: a single conflicting group
with no input aborts the merge. -/
theorem manual_unavailable_witness :
    (∃ kg ∈ (groupPapers [samplePaper "10.1/w" (some "INCLUDE") none,
                          samplePaper "10.1/w" (some "UNKNOWN") none]).1,
        unanimous_b kg.2 = false) ∧
    deduplicate_with_conflict_resolution
      [samplePaper "10.1/w" (some "INCLUDE") none,
       samplePaper "10.1/w" (some "UNKNOWN") none] "T2" [] = none :=
  ⟨by decide, manual_unavailable_aborts _ "T2" (by decide)⟩

/-- Claim C4: `conflicts_resolved` counts exactly the identity groups whose
(normalized) member decisions are not all equal, and `duplicates_removed` is
the sum of `size - 1` over the multi-member identity groups.  The last
conjunct ties `unanimous_b` to "all member decisions equal". -/
theorem conflict_accounting (papers : List Paper) (now : String) (choices : List String)
    (ups : List Paper) (dr cr : Nat)
    (h : deduplicate_with_conflict_resolution papers now choices = some (ups, dr, cr)) :
    cr = ((groupPapers papers).1.countP fun kg => !unanimous_b kg.2) ∧
    dr = (((groupPapers papers).1.filter fun kg => decide (1 < kg.2.length)).map
            fun kg => kg.2.length - 1).sum ∧
    ∀ kg ∈ (groupPapers papers).1,
      (unanimous_b kg.2 = true ↔
        ∀ p ∈ kg.2, ∀ q ∈ kg.2,
          p.decision.getD "UNKNOWN" = q.decision.getD "UNKNOWN") := by
  obtain ⟨gups, ch, hd, _⟩ := deduplicate_spec papers now choices ups dr cr h
  obtain ⟨_, hdr, hcr⟩ := dedupGroups_spec now _ choices gups dr cr ch hd
  refine ⟨hcr, ?_, ?_⟩
  · rw [hdr, sum_sub_one_filter]
  · intro kg hkg
    exact unanimous_b_iff kg.2 (groupPapers_fst_ne_nil papers kg hkg)

/-- Claim C4, witness: one unanimous duplicate pair, one conflicting pair
(resolved via option 1), one singleton: `conflicts_resolved = 1`,
`duplicates_removed = 2`. -/
theorem conflict_accounting_witness :
    ∃ ups dr cr,
      deduplicate_with_conflict_resolution
        [samplePaper "10.1/a" (some "INCLUDE") none,
         samplePaper "10.1/a" (some "INCLUDE") none,
         samplePaper "10.1/b" (some "INCLUDE") none,
         samplePaper "10.1/b" (some "EXCLUDE") none,
         samplePaper "10.1/s" (some "EXCLUDE") none] "T" ["1"] = some (ups, dr, cr) ∧
      cr = 1 ∧ dr = 2 ∧
      cr = ((groupPapers
              [samplePaper "10.1/a" (some "INCLUDE") none,
               samplePaper "10.1/a" (some "INCLUDE") none,
               samplePaper "10.1/b" (some "INCLUDE") none,
               samplePaper "10.1/b" (some "EXCLUDE") none,
               samplePaper "10.1/s" (some "EXCLUDE") none]).1.countP
            fun kg => !unanimous_b kg.2) := by
  obtain ⟨ups, dr, cr, h⟩ :
      ∃ u d c, deduplicate_with_conflict_resolution
        [samplePaper "10.1/a" (some "INCLUDE") none,
         samplePaper "10.1/a" (some "INCLUDE") none,
         samplePaper "10.1/b" (some "INCLUDE") none,
         samplePaper "10.1/b" (some "EXCLUDE") none,
         samplePaper "10.1/s" (some "EXCLUDE") none] "T" ["1"] = some (u, d, c) :=
    ⟨_, _, _, rfl⟩
  obtain ⟨hcr, hdr, _⟩ := conflict_accounting _ "T" ["1"] ups dr cr h
  exact ⟨ups, dr, cr, h, by rw [hcr]; decide, by rw [hdr]; decide, hcr⟩

/-- Claim C5: option 3 of the conflict prompt adopts the decision,
confidence and reason of the member returned by Python `max` keyed on
confidence, attaches a `highest_confidence` resolution block, and that
member is a true maximum whose earlier rivals all have strictly smaller
confidence (ties broken by first occurrence). -/
theorem highest_confidence_strategy (p0 : Paper) (ps : List Paper) (now c : String)
    (rest : List String) (hc : pyStrip c = "3") :
    resolve_screening_conflict (p0 :: ps) now (c :: rest) =
      some (highestConfResolve p0 ps now, rest) ∧
    (highestConfResolve p0 ps now).decision = (maxConfPaper p0 ps).decision ∧
    (highestConfResolve p0 ps now).confidence = (maxConfPaper p0 ps).confidence ∧
    (highestConfResolve p0 ps now).reason = (maxConfPaper p0 ps).reason ∧
    (∃ cb, (highestConfResolve p0 ps now).conflict_resolution = some cb ∧
      cb.method = "highest_confidence" ∧
      cb.selected_confidence = some (maxConfPaper p0 ps).confidence ∧
      cb.original_decisions = origDecisions (p0 :: ps)) ∧
    (∀ q ∈ p0 :: ps, q.confidence.getD 0 ≤ (maxConfPaper p0 ps).confidence.getD 0) ∧
    ∃ l1 l2, p0 :: ps = l1 ++ maxConfPaper p0 ps :: l2 ∧
      ∀ q ∈ l1, q.confidence.getD 0 < (maxConfPaper p0 ps).confidence.getD 0 := by
  obtain ⟨l1, l2, hsplit, hl1, hmax⟩ := maxConfPaper_spec p0 ps
  refine ⟨?_, rfl, rfl, rfl, ⟨_, rfl, rfl, rfl, rfl⟩, hmax, l1, l2, hsplit, hl1⟩
  simp [resolve_screening_conflict, hc]

/-- Claim C5, witness — the spec's Scenario B: decisions INCLUDE(0.9) and
EXCLUDE(0.8) under option 3 give INCLUDE with confidence 0.9 and method
`highest_confidence`. -/
theorem highest_confidence_strategy_witness :
    resolve_screening_conflict
      [samplePaper "10.1/y" (some "INCLUDE") (some confNine),
       samplePaper "10.1/y" (some "EXCLUDE") (some confEight)] "T" ["3"] =
      some (highestConfResolve (samplePaper "10.1/y" (some "INCLUDE") (some confNine))
              [samplePaper "10.1/y" (some "EXCLUDE") (some confEight)] "T", []) ∧
    (highestConfResolve (samplePaper "10.1/y" (some "INCLUDE") (some confNine))
        [samplePaper "10.1/y" (some "EXCLUDE") (some confEight)] "T").decision =
      some "INCLUDE" ∧
    (highestConfResolve (samplePaper "10.1/y" (some "INCLUDE") (some confNine))
        [samplePaper "10.1/y" (some "EXCLUDE") (some confEight)] "T").confidence =
      some confNine ∧
    ((highestConfResolve (samplePaper "10.1/y" (some "INCLUDE") (some confNine))
        [samplePaper "10.1/y" (some "EXCLUDE") (some confEight)] "T").conflict_resolution.map
      ConflictResolution.method) = some "highest_confidence" := by
  have h := highest_confidence_strategy
    (samplePaper "10.1/y" (some "INCLUDE") (some confNine))
    [samplePaper "10.1/y" (some "EXCLUDE") (some confEight)] "T" "3" [] (by decide)
  exact ⟨h.1, by decide, by decide, by decide⟩

/-- Claim C6, counterexample: the same input and the same collaborator
choices, run at two different wall-clock times, produce different outputs —
the `conflict_resolution.timestamp` field records `datetime.now()`. -/
theorem determinism_counterexample :
    deduplicate_with_conflict_resolution
      [samplePaper "10.1/d" (some "INCLUDE") none,
       samplePaper "10.1/d" (some "EXCLUDE") none]
      "2025-01-01T00:00:00" ["1"] ≠
    deduplicate_with_conflict_resolution
      [samplePaper "10.1/d" (some "INCLUDE") none,
       samplePaper "10.1/d" (some "EXCLUDE") none]
      "2025-01-02T00:00:00" ["1"] := by decide

/-- Claim C6, amended: with input order and collaborator choices fixed, two
runs agree on everything except the recorded wall-clock timestamps: erasing
the `conflict_resolution.timestamp` fields, the merged-paper lists and both
counters are identical whatever the two clock readings were (and hence runs
at the same clock reading are identical outright). -/
theorem determinism_up_to_timestamp (papers : List Paper) (choices : List String)
    (t1 t2 : String) :
    (deduplicate_with_conflict_resolution papers t1 choices).map
        (fun r => (r.1.map eraseTs, r.2)) =
      (deduplicate_with_conflict_resolution papers t2 choices).map
        (fun r => (r.1.map eraseTs, r.2)) := by
  simp only [deduplicate_with_conflict_resolution]
  by_cases hemp : papers.isEmpty
  · rw [if_pos hemp, if_pos hemp]
  · rw [if_neg hemp, if_neg hemp]
    have hinv := dedupGroups_time_inv t1 t2 (groupPapers papers).1 choices
    cases h1 : dedupGroups t1 (groupPapers papers).1 choices with
    | none =>
      cases h2 : dedupGroups t2 (groupPapers papers).1 choices with
      | none => rfl
      | some r2 => rw [h1, h2] at hinv; simp at hinv
    | some r1 =>
      cases h2 : dedupGroups t2 (groupPapers papers).1 choices with
      | none => rw [h1, h2] at hinv; simp at hinv
      | some r2 =>
        obtain ⟨u1, a1, b1, c1⟩ := r1
        obtain ⟨u2, a2, b2, c2⟩ := r2
        rw [h1, h2] at hinv
        simp only [Option.map_some', Option.some.injEq, Prod.mk.injEq] at hinv
        obtain ⟨hm, ha, hb, _⟩ := hinv
        simp only [Option.map_some', Option.some.injEq, Prod.mk.injEq]
        refine ⟨?_, ha, hb⟩
        rw [List.map_append, List.map_append, hm]

/-- Claim C7: papers with neither DOI nor OpenAlex id are never grouped —
each one flows through to the output unmodified, as its own entry, appended
after the per-group outputs in their exact input order (even when several of
them are field-for-field identical). -/
theorem no_identity_uniqueness (papers : List Paper) (now : String) (choices : List String)
    (ups : List Paper) (dr cr : Nat)
    (h : deduplicate_with_conflict_resolution papers now choices = some (ups, dr, cr)) :
    ∃ pre, ups = pre ++ (papers.filter fun p => (identifierOf p).isNone) ∧
      pre.length = (groupPapers papers).1.length := by
  obtain ⟨gups, ch, hd, hup⟩ := deduplicate_spec papers now choices ups dr cr h
  obtain ⟨hf, _, _⟩ := dedupGroups_spec now _ choices gups dr cr ch hd
  refine ⟨gups, ?_, (List.Forall₂.length_eq hf).symm⟩
  rw [hup, groupPapers_snd]

/-- Claim C7, witness — the spec's Scenario D plus an identical no-identifier
twin: the two identifier-less records survive as separate, unmodified trailing
entries and `duplicates_removed = 0`. -/
theorem no_identity_uniqueness_witness :
    ∃ ups dr cr,
      deduplicate_with_conflict_resolution
        [samplePaper "" none none,
         samplePaper "10.1/z" (some "INCLUDE") none,
         samplePaper "" none none] "T" [] = some (ups, dr, cr) ∧
      (∃ pre, ups = pre ++ [samplePaper "" none none, samplePaper "" none none] ∧
        pre.length = 1) ∧
      dr = 0 := by
  obtain ⟨ups, dr, cr, h⟩ :
      ∃ u d c, deduplicate_with_conflict_resolution
        [samplePaper "" none none,
         samplePaper "10.1/z" (some "INCLUDE") none,
         samplePaper "" none none] "T" [] = some (u, d, c) :=
    ⟨_, _, _, rfl⟩
  obtain ⟨pre, h1, h2⟩ := no_identity_uniqueness _ "T" [] ups dr cr h
  refine ⟨ups, dr, cr, h, ⟨pre, ?_, ?_⟩, ?_⟩
  · rw [h1]
    exact congrArg (fun l => pre ++ l) (by decide)
  · rw [h2]
    decide
  · have hv : (deduplicate_with_conflict_resolution
        [samplePaper "" none none,
         samplePaper "10.1/z" (some "INCLUDE") none,
         samplePaper "" none none] "T" []).map (fun r => r.2.1) = some 0 := by decide
    rw [h] at hv
    exact Option.some.inj hv

/-- Claim C8: a record with a missing `decision`/`confidence` key is not
rejected — grouping ignores both fields entirely; a missing decision reads as
"UNKNOWN"; an all-missing-confidence group ties at the default 0.0 (first
member wins Python's `max`); and a group mixing a missing decision with an
INCLUDE reading is non-unanimous and makes `conflicts_resolved` positive. -/
theorem malformed_record_normalized (papers : List Paper) (now : String)
    (choices : List String) (ups : List Paper) (dr cr : Nat)
    (h : deduplicate_with_conflict_resolution papers now choices = some (ups, dr, cr)) :
    (∀ (p : Paper) (d : Option String) (c : Option ℚ),
        identifierOf { p with decision := d, confidence := c } = identifierOf p) ∧
    (∀ p : Paper, p.decision = none → p.decision.getD "UNKNOWN" = "UNKNOWN") ∧
    (∀ (q0 : Paper) (qs : List Paper), q0.confidence = none →
        (∀ q ∈ qs, q.confidence = none) → maxConfPaper q0 qs = q0) ∧
    ∀ kg ∈ (groupPapers papers).1,
      (∃ p1 ∈ kg.2, p1.decision = none) →
      (∃ p2 ∈ kg.2, p2.decision.getD "UNKNOWN" = "INCLUDE") →
      unanimous_b kg.2 = false ∧ 1 ≤ cr := by
  obtain ⟨gups, ch, hd, _⟩ := deduplicate_spec papers now choices ups dr cr h
  obtain ⟨_, _, hcr⟩ := dedupGroups_spec now _ choices gups dr cr ch hd
  refine ⟨fun p d c => rfl, fun p hp => by rw [hp]; rfl, maxConfPaper_all_missing, ?_⟩
  intro kg hkg hp1 hp2
  obtain ⟨p1, hp1m, hp1d⟩ := hp1
  obtain ⟨p2, hp2m, hp2d⟩ := hp2
  have hub : unanimous_b kg.2 = false := by
    cases hbv : unanimous_b kg.2 with
    | false => rfl
    | true =>
      have hall := (unanimous_b_iff kg.2 (groupPapers_fst_ne_nil papers kg hkg)).mp hbv
      have heq := hall p1 hp1m p2 hp2m
      rw [hp1d, Option.getD_none, hp2d] at heq
      exact absurd heq (by decide)
  refine ⟨hub, ?_⟩
  rw [hcr]
  have hpos : 0 < (groupPapers papers).1.countP fun kg => !unanimous_b kg.2 :=
    List.countP_pos_iff.mpr ⟨kg, hkg, by rw [hub]; rfl⟩
  omega

/-- Claim C8, witness: a record with no decision/confidence keys grouped with
an INCLUDE sibling under the same DOI constitutes a conflict (`cr = 1`). -/
theorem malformed_record_normalized_witness :
    ∃ ups dr cr,
      deduplicate_with_conflict_resolution
        [samplePaper "10.1/g" none none,
         samplePaper "10.1/g" (some "INCLUDE") (some 1)] "T" ["1"] = some (ups, dr, cr) ∧
      unanimous_b [samplePaper "10.1/g" none none,
                   samplePaper "10.1/g" (some "INCLUDE") (some 1)] = false ∧
      1 ≤ cr ∧ cr = 1 := by
  obtain ⟨ups, dr, cr, h⟩ :
      ∃ u d c, deduplicate_with_conflict_resolution
        [samplePaper "10.1/g" none none,
         samplePaper "10.1/g" (some "INCLUDE") (some 1)] "T" ["1"] = some (u, d, c) :=
    ⟨_, _, _, rfl⟩
  have hmain := (malformed_record_normalized _ "T" ["1"] ups dr cr h).2.2.2
    ("doi:10.1/g", [samplePaper "10.1/g" none none,
                    samplePaper "10.1/g" (some "INCLUDE") (some 1)])
    (by decide)
    ⟨samplePaper "10.1/g" none none, by decide, rfl⟩
    ⟨samplePaper "10.1/g" (some "INCLUDE") (some 1), by decide, rfl⟩
  refine ⟨ups, dr, cr, h, hmain.1, hmain.2, ?_⟩
  have hv : (deduplicate_with_conflict_resolution
      [samplePaper "10.1/g" none none,
       samplePaper "10.1/g" (some "INCLUDE") (some 1)] "T" ["1"]).map
        (fun r => r.2.2) = some 1 := by decide
  rw [h] at hv
  exact Option.some.inj hv

/-- Claim C9: for a unanimous multi-member group the emitted representative
is the first group member with only the `duplicate_sources` key changed (set
to the per-member audit list); every other field — title, identifiers,
decision, confidence, reason, provenance, metadata, conflict_resolution — is
the first member's, verbatim. -/
theorem unanimous_representative (papers : List Paper) (now : String) (choices : List String)
    (ups : List Paper) (dr cr : Nat)
    (h : deduplicate_with_conflict_resolution papers now choices = some (ups, dr, cr)) :
    ∀ kg ∈ (groupPapers papers).1, ∀ p0 ps, kg.2 = p0 :: ps → ps ≠ [] →
      unanimous_b kg.2 = true →
      ∃ out ∈ ups,
        out = { p0 with duplicate_sources := some (kg.2.map decisionRecordOf) } ∧
        out.title = p0.title ∧ out.doi = p0.doi ∧ out.openalex_id = p0.openalex_id ∧
        out.decision = p0.decision ∧ out.confidence = p0.confidence ∧
        out.reason = p0.reason ∧ out.source_query_id = p0.source_query_id ∧
        out.source_query_description = p0.source_query_description ∧
        out.meta = p0.meta ∧ out.conflict_resolution = p0.conflict_resolution ∧
        out.duplicate_sources = some (kg.2.map decisionRecordOf) := by
  obtain ⟨gups, ch, hd, hup⟩ := deduplicate_spec papers now choices ups dr cr h
  obtain ⟨hf, _, _⟩ := dedupGroups_spec now _ choices gups dr cr ch hd
  intro kg hkg p0 ps hg2 hps hu
  obtain ⟨out, hout, hrel⟩ := forall₂_exists_right hf kg hkg
  rw [hg2] at hrel
  have hrep := hrel.2.1 hps (by rw [← hg2]; exact hu)
  refine ⟨out, by rw [hup]; exact List.mem_append_left _ hout, ?_⟩
  rw [hrep, hg2]
  exact ⟨rfl, rfl, rfl, rfl, rfl, rfl, rfl, rfl, rfl, rfl, rfl, rfl⟩

/-- The two-copy unanimous input of the C9 witness. -/
def repPaper : Paper := samplePaper "10.1/r" (some "EXCLUDE") none

/-- Claim C9, witness: a unanimous two-member EXCLUDE group; the output is
the first member plus the audit list, and each field matches. -/
theorem unanimous_representative_witness :
    ∃ ups dr cr,
      deduplicate_with_conflict_resolution [repPaper, repPaper] "T" [] =
        some (ups, dr, cr) ∧
      ∃ out ∈ ups,
        out = { repPaper with
                duplicate_sources := some ([repPaper, repPaper].map decisionRecordOf) } ∧
        out.title = repPaper.title ∧ out.doi = repPaper.doi ∧
        out.openalex_id = repPaper.openalex_id ∧
        out.decision = repPaper.decision ∧ out.confidence = repPaper.confidence ∧
        out.reason = repPaper.reason ∧ out.source_query_id = repPaper.source_query_id ∧
        out.source_query_description = repPaper.source_query_description ∧
        out.meta = repPaper.meta ∧ out.conflict_resolution = repPaper.conflict_resolution ∧
        out.duplicate_sources = some ([repPaper, repPaper].map decisionRecordOf) := by
  obtain ⟨ups, dr, cr, h⟩ :
      ∃ u d c, deduplicate_with_conflict_resolution [repPaper, repPaper] "T" [] =
        some (u, d, c) :=
    ⟨_, _, _, rfl⟩
  exact ⟨ups, dr, cr, h,
    unanimous_representative [repPaper, repPaper] "T" [] ups dr cr h
      ("doi:10.1/r", [repPaper, repPaper]) (by decide) repPaper [repPaper] rfl
      (by decide) (by decide)⟩

/-- Claim C10: options 1 and 2 of the conflict prompt copy the FIRST group
member and change only `decision` (to the forced verdict), `confidence` (to
exactly 1.0), `reason`, and the `conflict_resolution` block; title, DOI,
OpenAlex id, provenance fields, bibliographic metadata and the
`duplicate_sources` key are carried over from the first member unchanged. -/
theorem force_resolution_frame (p0 : Paper) (ps : List Paper) (now c : String)
    (rest : List String) (dec method : String)
    (hc : (pyStrip c = "1" ∧ dec = "INCLUDE" ∧ method = "manual_include") ∨
          (pyStrip c = "2" ∧ dec = "EXCLUDE" ∧ method = "manual_exclude")) :
    resolve_screening_conflict (p0 :: ps) now (c :: rest) =
      some (forceResolve (p0 :: ps) p0 now dec method, rest) ∧
    (forceResolve (p0 :: ps) p0 now dec method).title = p0.title ∧
    (forceResolve (p0 :: ps) p0 now dec method).doi = p0.doi ∧
    (forceResolve (p0 :: ps) p0 now dec method).openalex_id = p0.openalex_id ∧
    (forceResolve (p0 :: ps) p0 now dec method).source_query_id = p0.source_query_id ∧
    (forceResolve (p0 :: ps) p0 now dec method).source_query_description =
      p0.source_query_description ∧
    (forceResolve (p0 :: ps) p0 now dec method).meta = p0.meta ∧
    (forceResolve (p0 :: ps) p0 now dec method).duplicate_sources = p0.duplicate_sources ∧
    (forceResolve (p0 :: ps) p0 now dec method).decision = some dec ∧
    (forceResolve (p0 :: ps) p0 now dec method).confidence = some 1 ∧
    ∃ cb, (forceResolve (p0 :: ps) p0 now dec method).conflict_resolution = some cb ∧
      cb.method = method ∧ cb.timestamp = now ∧
      cb.original_decisions = origDecisions (p0 :: ps) := by
  refine ⟨?_, rfl, rfl, rfl, rfl, rfl, rfl, rfl, rfl, rfl, _, rfl, rfl, rfl, rfl⟩
  rcases hc with ⟨h1, rfl, rfl⟩ | ⟨h2, rfl, rfl⟩
  · simp [resolve_screening_conflict, h1]
  · simp [resolve_screening_conflict, h2]

/-- Claim C10, witness — the spec's Scenario C: ForceExclude (option 2) over
INCLUDE(0.9) / EXCLUDE(0.8) returns the first member with decision EXCLUDE,
confidence exactly 1, its DOI untouched. -/
theorem force_resolution_frame_witness :
    resolve_screening_conflict
      [samplePaper "10.1/y2" (some "INCLUDE") (some confNine),
       samplePaper "10.1/y2" (some "EXCLUDE") (some confEight)] "T" ["2"] =
      some (forceResolve
        [samplePaper "10.1/y2" (some "INCLUDE") (some confNine),
         samplePaper "10.1/y2" (some "EXCLUDE") (some confEight)]
        (samplePaper "10.1/y2" (some "INCLUDE") (some confNine)) "T"
        "EXCLUDE" "manual_exclude", []) ∧
    (forceResolve
        [samplePaper "10.1/y2" (some "INCLUDE") (some confNine),
         samplePaper "10.1/y2" (some "EXCLUDE") (some confEight)]
        (samplePaper "10.1/y2" (some "INCLUDE") (some confNine)) "T"
        "EXCLUDE" "manual_exclude").decision = some "EXCLUDE" ∧
    (forceResolve
        [samplePaper "10.1/y2" (some "INCLUDE") (some confNine),
         samplePaper "10.1/y2" (some "EXCLUDE") (some confEight)]
        (samplePaper "10.1/y2" (some "INCLUDE") (some confNine)) "T"
        "EXCLUDE" "manual_exclude").confidence = some 1 ∧
    (forceResolve
        [samplePaper "10.1/y2" (some "INCLUDE") (some confNine),
         samplePaper "10.1/y2" (some "EXCLUDE") (some confEight)]
        (samplePaper "10.1/y2" (some "INCLUDE") (some confNine)) "T"
        "EXCLUDE" "manual_exclude").doi = "10.1/y2" := by
  have h := force_resolution_frame
    (samplePaper "10.1/y2" (some "INCLUDE") (some confNine))
    [samplePaper "10.1/y2" (some "EXCLUDE") (some confEight)] "T" "2" []
    "EXCLUDE" "manual_exclude" (Or.inr ⟨by decide, rfl, rfl⟩)
  exact ⟨h.1, by decide, by decide, by decide⟩

end PaperScreening
